import Mathlib

/-!
Verification of the forgor sync engine (internal/sync) against its
specification.  The Go source is shallowly embedded: pure data flow is
translated to Lean functions, the bolt-backed state store becomes explicit
state passing, and the external cryptographic primitives (Ed25519,
XChaCha20-Poly1305, NaCl secretbox, HKDF-SHA256, SHA-256) are modelled
symbolically — an authenticated ciphertext remembers the scheme, key and
nonce it was sealed under, and opening succeeds exactly when they match.
-/

namespace Forgor

/-- models.Entry (internal/models): the user-visible record.  `updatedAt`
is an RFC3339 timestamp in JSON; we keep it as an uninterpreted string. -/
structure Entry where
  id : String
  website : String
  username : String
  password : String
  notes : String
  tags : List String
  updatedAt : String
deriving DecidableEq, Repr, Inhabited

/-- The event payload `{"op": op, "entry": entry}` that
`encryptEventPayload` JSON-marshals and seals.  JSON round-tripping is
modelled as the identity on this structure. -/
structure EventPayload where
  op : String
  entry : Entry
deriving DecidableEq, Repr, Inhabited

/-- Symbolic values of symmetric keys: a key remembers how it was derived,
so distinct derivations give distinct keys (ideal KDF). -/
inductive EventKeyVal where
  | hkdfSha256 (ikm : List Nat) (info : String)
  | sha256Concat (vaultKey : List Nat) (info : String)
deriving DecidableEq, Repr, Inhabited

/-- deriveEventKey (engine.go): HKDF-SHA256 with ikm = vault key, empty
salt and info "forgor-event-key-epoch-{N}". -/
def deriveEventKey (vaultKey : List Nat) (keyEpoch : Nat) : EventKeyVal :=
  EventKeyVal.hkdfSha256 vaultKey ("forgor-event-key-epoch-" ++ toString keyEpoch)

/-- deriveLegacyEventKey (engine.go): SHA-256 over vault key followed by
the same info string. -/
def deriveLegacyEventKey (vaultKey : List Nat) (keyEpoch : Nat) : EventKeyVal :=
  EventKeyVal.sha256Concat vaultKey ("forgor-event-key-epoch-" ++ toString keyEpoch)

/-- The two AEAD constructions used for event payloads. -/
inductive AeadScheme where
  | xchacha20poly1305
  | xsalsa20poly1305
deriving DecidableEq, Repr, Inhabited

/-- Symbolic authenticated ciphertext: it records the scheme, key, nonce
and plaintext it was sealed with; opening authenticates all three. -/
inductive Ciphertext where
  | sealed (scheme : AeadScheme) (key : EventKeyVal) (nonce : List Nat)
      (plaintext : EventPayload)
deriving DecidableEq, Repr, Inhabited

/-- chacha20poly1305.NewX(key).Open: succeeds iff the ciphertext was
sealed under XChaCha20-Poly1305 with the same key and nonce. -/
def xchachaOpen (key : EventKeyVal) (nonce : List Nat) :
    Ciphertext → Option EventPayload
  | Ciphertext.sealed s k n pt =>
      if s = AeadScheme.xchacha20poly1305 ∧ k = key ∧ n = nonce then some pt
      else none

/-- secretbox.Open: succeeds iff the ciphertext was sealed under
XSalsa20-Poly1305 with the same key and nonce. -/
def secretboxOpen (key : EventKeyVal) (nonce : List Nat) :
    Ciphertext → Option EventPayload
  | Ciphertext.sealed s k n pt =>
      if s = AeadScheme.xsalsa20poly1305 ∧ k = key ∧ n = nonce then some pt
      else none

/-- The 24-byte nonce length (crypto.NonceSize in internal/crypto). -/
def NonceLength : Nat := 24

/-- encryptEventPayload (engine.go): derive the epoch key, marshal
`{op, entry}`, draw a fresh 24-byte nonce (passed in here, since
randomness is external), and seal with XChaCha20-Poly1305.  Returns
(ciphertext, nonce). -/
def encryptEventPayload (vaultKey : List Nat) (keyEpoch : Nat)
    (op : String) (entry : Entry) (nonce : List Nat) :
    Ciphertext × List Nat :=
  let eventKey := deriveEventKey vaultKey keyEpoch
  let payload : EventPayload := { op := op, entry := entry }
  (Ciphertext.sealed AeadScheme.xchacha20poly1305 eventKey nonce payload, nonce)

/-- decryptEventPayloadXChaCha (engine.go). -/
def decryptEventPayloadXChaCha (vaultKey : List Nat) (keyEpoch : Nat)
    (nonce : List Nat) (ciphertext : Ciphertext) : Option EventPayload :=
  xchachaOpen (deriveEventKey vaultKey keyEpoch) nonce ciphertext

/-- decryptEventPayloadLegacy (engine.go): reject a nonce that is not 24
bytes, then open as a NaCl secretbox under the legacy key. -/
def decryptEventPayloadLegacy (vaultKey : List Nat) (keyEpoch : Nat)
    (nonce : List Nat) (ciphertext : Ciphertext) : Option EventPayload :=
  if nonce.length ≠ NonceLength then none
  else secretboxOpen (deriveLegacyEventKey vaultKey keyEpoch) nonce ciphertext

/-- decryptEventPayload (engine.go): try XChaCha20-Poly1305 under the
HKDF epoch key first; on failure fall back to the legacy scheme; record
the scheme ("v2" or "legacy") that succeeded.  Returns (op, entry,
scheme), or none when both schemes fail. -/
def decryptEventPayload (vaultKey : List Nat) (ciphertext : Ciphertext)
    (nonce : List Nat) (keyEpoch : Nat) :
    Option (String × Entry × String) :=
  match decryptEventPayloadXChaCha vaultKey keyEpoch nonce ciphertext with
  | some pt => some (pt.op, pt.entry, "v2")
  | none =>
      match decryptEventPayloadLegacy vaultKey keyEpoch nonce ciphertext with
      | some pt => some (pt.op, pt.entry, "legacy")
      | none => none

/-! ## Wire events and the pull-and-merge of SyncEntries -/

/-- The wire Event as consumed by the engine (uuids and hashes kept as
byte lists, the device id as its 64-hex string, the relay-assigned seq
as a plain number). -/
structure Event where
  eventID : List Nat
  vaultID : List Nat
  deviceID : String
  counter : Nat
  lamport : Nat
  keyEpoch : Nat
  prevHash : List Nat
  nonce : List Nat
  ciphertext : Ciphertext
  signature : List Nat
  seq : Nat
deriving DecidableEq, Repr, Inhabited

/-- Pointwise update of a string-keyed map, mirroring a bucket Put or a
Go map assignment. -/
def update {α : Type} (f : String → α) (k : String) (v : α) : String → α :=
  fun x => if x = k then v else f x

/-- The read-only context SyncEntries runs in: the vault key (for
decryption), membership of the verified-member set, and the outcome of
Ed25519 signature verification (an external primitive, abstracted as a
predicate on the event). -/
structure SyncCtx where
  vaultKey : List Nat
  verifiedMembers : String → Bool
  sigOk : Event → Bool

/-- The per-merge working maps of SyncEntries: entryMap, entryLamport,
entryDeviceID, deletedIDs (Go maps keyed by entry id; entryDeviceID
defaults to the empty string like a Go map read), plus the persistent
entry_scheme records touched during the merge. -/
structure MergeState where
  entryMap : String → Option Entry
  entryLamport : String → Option Nat
  entryDeviceID : String → String
  deletedIDs : String → Bool
  entryScheme : String → Option String

/-- The win test of SyncEntries:
`!exists || eventLamport > existingLamport || (eventLamport ==
existingLamport && eventDeviceID > entryDeviceID[entry.ID])`. -/
def winsAgainst (st : MergeState) (id : String) (eventLamport : Nat)
    (eventDeviceID : String) : Bool :=
  match st.entryLamport id with
  | none => true
  | some existingLamport =>
      decide (eventLamport > existingLamport) ||
        (decide (eventLamport = existingLamport) &&
          decide (st.entryDeviceID id < eventDeviceID))

/-- The body of the merge step of SyncEntries for one decrypted event
(op, entry, scheme) with its lamport and device id: a winning delete
removes the id, marks it deleted and records (lamport, device); a
winning upsert installs the entry and records (lamport, device) only
when the id has not been marked deleted; other ops are ignored. -/
def mergeEventOp (st : MergeState) (op : String) (entry : Entry)
    (eventLamport : Nat) (eventDeviceID : String) (scheme : String) :
    MergeState :=
  if op = "delete" then
    if winsAgainst st entry.id eventLamport eventDeviceID then
      { st with
        deletedIDs := update st.deletedIDs entry.id true,
        entryMap := update st.entryMap entry.id none,
        entryLamport := update st.entryLamport entry.id (some eventLamport),
        entryDeviceID := update st.entryDeviceID entry.id eventDeviceID,
        entryScheme := update st.entryScheme entry.id none }
    else st
  else if op = "upsert" then
    if winsAgainst st entry.id eventLamport eventDeviceID then
      if st.deletedIDs entry.id = false then
        { st with
          entryMap := update st.entryMap entry.id (some entry),
          entryLamport := update st.entryLamport entry.id (some eventLamport),
          entryDeviceID := update st.entryDeviceID entry.id eventDeviceID,
          entryScheme := update st.entryScheme entry.id (some scheme) }
      else st
    else st
  else st

/-- The full loop state of SyncEntries: working maps plus the running
maxSeq and maxLamport. -/
structure LoopState where
  merge : MergeState
  maxSeq : Nat
  maxLamport : Nat

/-- One iteration of the SyncEntries event loop: skip events from
unverified senders, events whose signature fails to verify, and events
that decrypt under neither scheme; otherwise merge and update
maxSeq/maxLamport. -/
def processEvent (ctx : SyncCtx) (ls : LoopState) (ev : Event) : LoopState :=
  if ctx.verifiedMembers ev.deviceID = false then ls
  else if ctx.sigOk ev = false then ls
  else
    match decryptEventPayload ctx.vaultKey ev.ciphertext ev.nonce ev.keyEpoch with
    | none => ls
    | some (op, entry, scheme) =>
        let merged := mergeEventOp ls.merge op entry ev.lamport ev.deviceID scheme
        { merge := merged,
          maxSeq := if ev.seq > ls.maxSeq then ev.seq else ls.maxSeq,
          maxLamport := if ev.lamport > ls.maxLamport then ev.lamport else ls.maxLamport }

/-- Preloading of entryMap from the caller's local entries:
`for _, entry := range localEntries { entryMap[entry.ID] = entry }`. -/
def loadLocalEntries (localEntries : List Entry) : String → Option Entry :=
  localEntries.foldl (fun m e => update m e.id (some e)) (fun _ => none)

/-- IncrementLamport (sync state store): atomic `current + 1`. -/
def incrementLamport (current : Nat) : Nat := current + 1

/-- UpdateLamport (sync state store): atomic
`if observed > current then observed + 1 else current + 1`. -/
def updateLamport (current observed : Nat) : Nat :=
  if observed > current then observed + 1 else current + 1

/-- The persisted outcome of SyncEntries: final working maps, the
sync cursor, and the lamport clock. -/
structure SyncResult where
  merge : MergeState
  cursor : Nat
  lamport : Nat

/-- The loop state SyncEntries starts from: entryMap preloaded with the
local entries, empty tracking maps, maxSeq at the cursor and maxLamport
at the current lamport clock. -/
def initialLoopState (cursor0 lamport0 : Nat) (localEntries : List Entry)
    (scheme0 : String → Option String) : LoopState :=
  { merge :=
      { entryMap := loadLocalEntries localEntries,
        entryLamport := fun _ => none,
        entryDeviceID := fun _ => "",
        deletedIDs := fun _ => false,
        entryScheme := scheme0 },
    maxSeq := cursor0,
    maxLamport := lamport0 }

/-- SyncEntries (engine.go): preload local entries, fold the pulled
events through processEvent, then persist the cursor only when it
advanced and call UpdateLamport only when maxLamport exceeds the current
clock. -/
def syncEntries (ctx : SyncCtx) (cursor0 lamport0 : Nat)
    (localEntries : List Entry) (remoteEvents : List Event)
    (scheme0 : String → Option String) : SyncResult :=
  let ls := remoteEvents.foldl (processEvent ctx)
    (initialLoopState cursor0 lamport0 localEntries scheme0)
  { merge := ls.merge,
    cursor := if ls.maxSeq > cursor0 then ls.maxSeq else cursor0,
    lamport :=
      if ls.maxLamport > lamport0 then updateLamport lamport0 ls.maxLamport
      else lamport0 }

/-! ## PushEntry and the per-device event chain -/

/-- event_head record for a device: (last_counter, last_hash). -/
structure EventHead where
  lastCounter : Nat
  lastHash : List Nat
deriving DecidableEq, Repr

/-- The fields SignBytesEvent serialises, in source order.  The canonical
byte encoding itself and SHA-256 live outside src, so both are kept as
parameters (`sha` below maps these fields straight to the 32-byte hash of
the encoded signed bytes; an injective encoding composed with SHA-256). -/
structure EventSignInput where
  eventID : List Nat
  vaultID : List Nat
  deviceID : String
  counter : Nat
  lamport : Nat
  keyEpoch : Nat
  prevHash : List Nat
  nonce : List Nat
  ciphertext : Ciphertext
deriving DecidableEq, Repr

/-- The signed fields of a wire event, as recomputed by a verifier
(PullEvents / SyncEntries recompute SignBytesEvent from these). -/
def eventSignInput (ev : Event) : EventSignInput :=
  { eventID := ev.eventID,
    vaultID := ev.vaultID,
    deviceID := ev.deviceID,
    counter := ev.counter,
    lamport := ev.lamport,
    keyEpoch := ev.keyEpoch,
    prevHash := ev.prevHash,
    nonce := ev.nonce,
    ciphertext := ev.ciphertext }

/-- The engine-visible sync state read and written by PushEntry: device
and vault identity, key epoch, lamport clock, own event head, and the
entry_scheme records. -/
structure EngineState where
  deviceID : String
  vaultID : List Nat
  vaultKey : List Nat
  keyEpoch : Nat
  lamport : Nat
  eventHead : EventHead
  entryScheme : String → Option String

/-- PushEntry (engine.go): validate the op, increment the lamport clock,
encrypt the payload, build the event with `counter = last_counter + 1`
and `prev_hash = last_hash`, sign it, and post it.  `sha` is SHA-256
over the canonical signed bytes, `signFn` the Ed25519 signature, both
external; `eventID` and `nonce` stand for the fresh randomness;
`pushOk` is whether the relay accepted the POST.  On a POST failure the
error is returned with the event head and entry_scheme untouched (the
lamport increment has already been persisted).  On success the event
head becomes (counter, SHA-256(signed bytes)) and entry_scheme[id] is
set to "v2" for an upsert and removed for a delete. -/
def pushEntry (sha : EventSignInput → List Nat)
    (signFn : EventSignInput → List Nat) (st : EngineState)
    (entry : Entry) (op : String) (eventID : List Nat)
    (nonce : List Nat) (pushOk : Bool) :
    Except String Event × EngineState :=
  if ¬(op = "upsert" ∨ op = "delete") then
    (Except.error "invalid operation", st)
  else
    let lamport := incrementLamport st.lamport
    let st1 := { st with lamport := lamport }
    let enc := encryptEventPayload st.vaultKey st.keyEpoch op entry nonce
    let counter := st.eventHead.lastCounter + 1
    let si : EventSignInput :=
      { eventID := eventID,
        vaultID := st.vaultID,
        deviceID := st.deviceID,
        counter := counter,
        lamport := lamport,
        keyEpoch := st.keyEpoch,
        prevHash := st.eventHead.lastHash,
        nonce := enc.2,
        ciphertext := enc.1 }
    let ev : Event :=
      { eventID := eventID,
        vaultID := st.vaultID,
        deviceID := st.deviceID,
        counter := counter,
        lamport := lamport,
        keyEpoch := st.keyEpoch,
        prevHash := st.eventHead.lastHash,
        nonce := enc.2,
        ciphertext := enc.1,
        signature := signFn si,
        seq := 0 }
    if pushOk = false then
      (Except.error "failed to push event", st1)
    else
      let st2 := { st1 with eventHead := { lastCounter := counter, lastHash := sha si } }
      let st3 :=
        if op = "upsert" then
          { st2 with entryScheme := update st2.entryScheme entry.id (some "v2") }
        else
          { st2 with entryScheme := update st2.entryScheme entry.id none }
      (Except.ok ev, st3)

/-- One queued push request: the entry to push, the op, and the fresh
event id and nonce the call will draw. -/
structure PushInput where
  entry : Entry
  op : String
  eventID : List Nat
  nonce : List Nat

/-- A sequence of successful PushEntry calls by one device: each call is
given `pushOk = true`; the produced events and the final state are
returned.  (An op rejected as invalid stops the sequence; the chain
theorems assume every op is upsert or delete.) -/
def pushAll (sha : EventSignInput → List Nat)
    (signFn : EventSignInput → List Nat) (st : EngineState) :
    List PushInput → List Event × EngineState
  | [] => ([], st)
  | inp :: rest =>
      match pushEntry sha signFn st inp.entry inp.op inp.eventID inp.nonce true with
      | (Except.ok ev, st1) =>
          let r := pushAll sha signFn st1 rest
          (ev :: r.1, r.2)
      | (Except.error _, st1) => ([], st1)

/-- The hash-chain predicate for a run of events starting from a given
event head: each event's counter is the head's counter plus one, its
prev_hash is the head's hash, and the rest chains from
(counter, SHA-256(signed bytes)). -/
def chainFrom (sha : EventSignInput → List Nat) (head : EventHead) :
    List Event → Prop
  | [] => True
  | ev :: rest =>
      ev.counter = head.lastCounter + 1 ∧
      ev.prevHash = head.lastHash ∧
      chainFrom sha { lastCounter := ev.counter, lastHash := sha (eventSignInput ev) } rest

/-- The event head stored after pushing a run of events from a given
head. -/
def headAfter (sha : EventSignInput → List Nat) (head : EventHead) :
    List Event → EventHead
  | [] => head
  | ev :: rest =>
      headAfter sha { lastCounter := ev.counter, lastHash := sha (eventSignInput ev) } rest

/-! ## The pending queue (handleSyncPushEntry, FlushPendingEntries) -/

/-- sync_pending record: (op, Entry). -/
structure PendingEntry where
  op : String
  entry : Entry
deriving DecidableEq, Repr

/-- The sync_pending bucket as an association list keyed by entry id
(bolt keeps one record per key). -/
def PendingQueue : Type := List (String × PendingEntry)

/-- Bucket Put for sync_pending: replace the record under the key, or
append a new one. -/
def pendingPut (l : List (String × PendingEntry)) (id : String)
    (v : PendingEntry) : List (String × PendingEntry) :=
  if l.any (fun p => p.1 = id) then
    l.map (fun p => if p.1 = id then (id, v) else p)
  else l ++ [(id, v)]

/-- RemovePendingEntry: a no-op on the empty id, else delete the key. -/
def pendingRemove (l : List (String × PendingEntry)) (id : String) :
    List (String × PendingEntry) :=
  if id = "" then l else l.filter (fun p => ¬(p.1 = id))

/-- AddPendingEntry (sync state store): reject an empty entry id,
otherwise store (op, Entry) under the entry id. -/
def addPendingEntry (l : List (String × PendingEntry)) (op : String)
    (entry : Entry) : List (String × PendingEntry) :=
  if entry.id = "" then l else pendingPut l entry.id { op := op, entry := entry }

/-- Engine state together with the pending queue. -/
structure AppState where
  engine : EngineState
  pending : List (String × PendingEntry)

/-- handleSyncPushEntry (TUI layer): validate the op, call
Engine.PushEntry; on failure enqueue (op, Entry) in sync_pending and
report the error, on success remove any queued record for the id.
The Bool result is true exactly when the push succeeded. -/
def handleSyncPushEntry (sha signFn : EventSignInput → List Nat)
    (ast : AppState) (entry : Entry) (op : String) (eventID : List Nat)
    (nonce : List Nat) (pushOk : Bool) : Bool × AppState :=
  if ¬(op = "upsert" ∨ op = "delete") then (false, ast)
  else
    match pushEntry sha signFn ast.engine entry op eventID nonce pushOk with
    | (Except.error _, st1) =>
        (false, { engine := st1, pending := addPendingEntry ast.pending op entry })
    | (Except.ok _, st1) =>
        (true, { engine := st1, pending := pendingRemove ast.pending entry.id })

/-- The loop of FlushPendingEntries over the snapshot of pending items:
an item with an invalid op only sets firstErr; otherwise the item is
re-pushed via PushEntry (the i-th attempt drawing randomness
`supply i` and transport outcome `okAt i`), removed from the queue on
success and left queued on failure, with firstErr recording the first
failure.  Also returns the list of items actually handed to PushEntry. -/
def flushGo (sha signFn : EventSignInput → List Nat)
    (supply : Nat → List Nat × List Nat) (okAt : Nat → Bool) :
    List (String × PendingEntry) → Nat → Option String → AppState →
    Option String × AppState × List (String × PendingEntry)
  | [], _, firstErr, ast => (firstErr, ast, [])
  | (pid, item) :: rest, i, firstErr, ast =>
      if ¬(item.op = "upsert" ∨ item.op = "delete") then
        let fe := match firstErr with
          | none => some "invalid pending operation"
          | some m => some m
        flushGo sha signFn supply okAt rest (i + 1) fe ast
      else
        match pushEntry sha signFn ast.engine item.entry item.op
            (supply i).1 (supply i).2 (okAt i) with
        | (Except.error msg, st1) =>
            let fe := match firstErr with
              | none => some msg
              | some m => some m
            let r := flushGo sha signFn supply okAt rest (i + 1) fe
              { engine := st1, pending := ast.pending }
            (r.1, r.2.1, (pid, item) :: r.2.2)
        | (Except.ok _, st1) =>
            let r := flushGo sha signFn supply okAt rest (i + 1) firstErr
              { engine := st1, pending := pendingRemove ast.pending item.entry.id }
            (r.1, r.2.1, (pid, item) :: r.2.2)

/-- FlushPendingEntries (engine.go): snapshot the queue and run the
retry loop; an empty queue is a no-op. -/
def flushPendingEntries (sha signFn : EventSignInput → List Nat)
    (supply : Nat → List Nat × List Nat) (okAt : Nat → Bool)
    (ast : AppState) :
    Option String × AppState × List (String × PendingEntry) :=
  if ast.pending = [] then (none, ast, [])
  else flushGo sha signFn supply okAt ast.pending 0 none ast

/-! ## AcceptPendingInviteClaims and the invite-already-used no-op -/

/-- The error taxonomy seen by the claim-accept loop: a relay APIError
(code, HTTP status, message) — errors.As unwraps fmt.Errorf wrapping, so
the payload survives — or any other error. -/
inductive SyncError where
  | api (code : String) (status : Nat) (message : String)
  | other (message : String)
deriving DecidableEq, Repr

/-- strings.Contains on char lists: prefix test helper. -/
def charsHavePrefixAt (pat hay : List Char) : Bool :=
  match pat, hay with
  | [], _ => true
  | _ :: _, [] => false
  | p :: ps, h :: hs => p = h && charsHavePrefixAt ps hs

/-- strings.Contains on char lists: does `pat` occur in `hay`? -/
def charsContain (pat : List Char) : List Char → Bool
  | [] => charsHavePrefixAt pat []
  | h :: hs => charsHavePrefixAt pat (h :: hs) || charsContain pat hs

/-- strings.Contains. -/
def stringContains (s pat : String) : Bool :=
  charsContain pat.data s.data

/-- strings.ToLower (character-wise). -/
def strToLower (s : String) : String :=
  ⟨s.data.map Char.toLower⟩

/-- isInviteAlreadyUsed (engine.go): an APIError with code
"invite_already_used", or HTTP 409 whose lower-cased message contains
"invite has already been used". -/
def isInviteAlreadyUsed : SyncError → Bool
  | SyncError.api code status message =>
      if code = "invite_already_used" then true
      else if status = 409 ∧
          stringContains (strToLower message) "invite has already been used" = true then
        true
      else false
  | SyncError.other _ => false

/-- An invite claim as seen by the accept loop (the vault id as a
string; remaining fields are opaque to the loop). -/
structure InviteClaim where
  vaultID : String
  inviteID : String
  deviceID : String
deriving DecidableEq, Repr

/-- The loop of AcceptPendingInviteClaims (engine.go): skip claims for a
different vault; accept each remaining claim (`accept` abstracts
Engine.AcceptInviteClaim, whose success posts one member_add); treat an
invite-already-used error as a successful no-op and continue; abort on
any other error.  Returns the claims for which a member_add was
produced. -/
def acceptPendingInviteClaims (vaultID : String)
    (accept : InviteClaim → Except SyncError Unit) :
    List InviteClaim → Except SyncError (List InviteClaim)
  | [] => Except.ok []
  | c :: rest =>
      if ¬(c.vaultID = vaultID) then
        acceptPendingInviteClaims vaultID accept rest
      else
        match accept c with
        | Except.ok _ =>
            match acceptPendingInviteClaims vaultID accept rest with
            | Except.ok accepted => Except.ok (c :: accepted)
            | Except.error e => Except.error e
        | Except.error e =>
            if isInviteAlreadyUsed e then
              acceptPendingInviteClaims vaultID accept rest
            else Except.error e

/-- The no-op/abort specification of the claim-accept loop for a
recognised already-used error (code, status, msg): the error predicate
accepts it; a claim failing with it is skipped without affecting the
rest of the loop; and a claim in this vault failing with an
unrecognised error aborts the loop with that error. -/
def alreadyUsedNoOpSpec (v code : String) (status : Nat) (msg : String) : Prop :=
  isInviteAlreadyUsed (SyncError.api code status msg) = true ∧
  (∀ (accept : InviteClaim → Except SyncError Unit) (c : InviteClaim)
      (l1 l2 : List InviteClaim),
    accept c = Except.error (SyncError.api code status msg) →
    acceptPendingInviteClaims v accept (l1 ++ c :: l2) =
      acceptPendingInviteClaims v accept (l1 ++ l2)) ∧
  (∀ (accept : InviteClaim → Except SyncError Unit) (c : InviteClaim)
      (e2 : SyncError) (l1 l2 : List InviteClaim),
    c.vaultID = v → accept c = Except.error e2 →
    isInviteAlreadyUsed e2 = false →
    (∀ d ∈ l1, d.vaultID = v →
      (accept d = Except.ok () ∨
        ∃ e3, accept d = Except.error e3 ∧ isInviteAlreadyUsed e3 = true)) →
    acceptPendingInviteClaims v accept (l1 ++ c :: l2) = Except.error e2)

/-! ## The state store and leave-vault -/

/-- The persisted key-value state: the sync_meta bucket as a map from
key name to raw bytes, and the three vault-scoped buckets. -/
structure StoreState where
  meta : String → Option (List Nat)
  members : String → Option (List Nat)
  eventHeads : String → Option (List Nat)
  pending : String → Option (List Nat)

/-- The sync_meta keys deleted by ClearVaultState, in source order. -/
def vaultStateKeys : List String :=
  ["vault_id", "vault_key_enc", "key_epoch", "owner_device_id",
   "member_seq", "member_head_hash", "sync_cursor", "lamport"]

/-- ClearVaultState (sync state store): delete exactly the vault-scoped
sync_meta scalars. -/
def clearVaultState (st : StoreState) : StoreState :=
  { st with
    meta := fun k => if vaultStateKeys.contains k then none else st.meta k }

/-- ClearVerifiedMembers: drop and recreate the sync_members bucket. -/
def clearVerifiedMembers (st : StoreState) : StoreState :=
  { st with members := fun _ => none }

/-- ClearEventHeads: delete every key of sync_event_heads. -/
def clearEventHeads (st : StoreState) : StoreState :=
  { st with eventHeads := fun _ => none }

/-- ClearPendingEntries: drop and recreate the sync_pending bucket. -/
def clearPendingEntries (st : StoreState) : StoreState :=
  { st with pending := fun _ => none }

/-- handleLeaveVault (TUI layer): ClearVaultState, then
ClearVerifiedMembers, ClearEventHeads, ClearPendingEntries. -/
def handleLeaveVault (st : StoreState) : StoreState :=
  clearPendingEntries (clearEventHeads (clearVerifiedMembers (clearVaultState st)))

/-! ## The (lamport, device_id) order of the spec, and concrete inputs -/

/-- The spec's win order: (l1, d1) beats (l2, d2) iff l1 is strictly
greater, or the lamports tie and d1 is lexicographically greater. -/
def lexWins (l1 : Nat) (d1 : String) (l2 : Nat) (d2 : String) : Prop :=
  l2 < l1 ∨ (l1 = l2 ∧ d2 < d1)

instance (l1 : Nat) (d1 : String) (l2 : Nat) (d2 : String) :
    Decidable (lexWins l1 d1 l2 d2) := by
  unfold lexWins; infer_instance

/-- A concrete vault key for the counterexamples and witnesses. -/
def exVaultKey : List Nat := [1, 2, 3]

/-- A concrete 24-byte nonce. -/
def exNonce : List Nat := List.replicate 24 7

/-- A concrete entry with id "x". -/
def exEntryX : Entry :=
  { id := "x", website := "ex.com", username := "u", password := "p",
    notes := "", tags := [], updatedAt := "t1" }

/-- A second concrete entry with the same id "x". -/
def exEntryX2 : Entry :=
  { id := "x", website := "ex2.com", username := "u2", password := "p2",
    notes := "n", tags := ["t"], updatedAt := "t2" }

/-- A merge context that trusts devices "a" and "b" and accepts all
signatures. -/
def exCtx : SyncCtx :=
  { vaultKey := exVaultKey,
    verifiedMembers := fun d => d = "a" || d = "b",
    sigOk := fun _ => true }

/-- A delete event for id "x" from device "a" at lamport 1. -/
def exDeleteEvent : Event :=
  { eventID := [10], vaultID := [1], deviceID := "a", counter := 1,
    lamport := 1, keyEpoch := 1, prevHash := List.replicate 32 0,
    nonce := exNonce,
    ciphertext := (encryptEventPayload exVaultKey 1 "delete" exEntryX exNonce).1,
    signature := [], seq := 1 }

/-- An upsert event for id "x" from device "b" at lamport 2: it wins
against the delete under the (lamport, device_id) order. -/
def exUpsertEvent : Event :=
  { eventID := [11], vaultID := [1], deviceID := "b", counter := 1,
    lamport := 2, keyEpoch := 1, prevHash := List.replicate 32 0,
    nonce := exNonce,
    ciphertext := (encryptEventPayload exVaultKey 1 "upsert" exEntryX2 exNonce).1,
    signature := [], seq := 2 }

/-- An upsert event for id "x" from device "a" at lamport 3, used to
show the lamport clock is not bumped when the pulled maximum does not
exceed the local clock. -/
def exLowLamportEvent : Event :=
  { eventID := [12], vaultID := [1], deviceID := "a", counter := 1,
    lamport := 3, keyEpoch := 1, prevHash := List.replicate 32 0,
    nonce := exNonce,
    ciphertext := (encryptEventPayload exVaultKey 1 "upsert" exEntryX exNonce).1,
    signature := [], seq := 1 }

/-- An empty entry-scheme table. -/
def noSchemes : String → Option String := fun _ => none

/-- The chain specification of a run of pushes (claim C3): as many
events as inputs; the first event has counter 1 and an all-zero
prev_hash; each later event continues from the previous one's counter
and hashed signed bytes; and the stored head ends at the last event's
(counter, hash of signed bytes). -/
def chainSpec (sha signFn : EventSignInput → List Nat) (st : EngineState)
    (inputs : List PushInput) : Prop :=
  (pushAll sha signFn st inputs).1.length = inputs.length ∧
  (0 < (pushAll sha signFn st inputs).1.length →
    ((pushAll sha signFn st inputs).1.getD 0 default).counter = 1 ∧
    ((pushAll sha signFn st inputs).1.getD 0 default).prevHash = List.replicate 32 0) ∧
  (∀ i, i + 1 < (pushAll sha signFn st inputs).1.length →
    ((pushAll sha signFn st inputs).1.getD (i + 1) default).counter =
      ((pushAll sha signFn st inputs).1.getD i default).counter + 1 ∧
    ((pushAll sha signFn st inputs).1.getD (i + 1) default).prevHash =
      sha (eventSignInput ((pushAll sha signFn st inputs).1.getD i default))) ∧
  (∀ ev, (pushAll sha signFn st inputs).1.getLast? = some ev →
    (pushAll sha signFn st inputs).2.eventHead =
      { lastCounter := ev.counter, lastHash := sha (eventSignInput ev) })

/-- An upsert event for id "x" from device "a" at lamport 1 (loses to
exUpsertEvent under the (lamport, device_id) order). -/
def exUpsertEventA : Event :=
  { eventID := [13], vaultID := [1], deviceID := "a", counter := 1,
    lamport := 1, keyEpoch := 1, prevHash := List.replicate 32 0,
    nonce := exNonce,
    ciphertext := (encryptEventPayload exVaultKey 1 "upsert" exEntryX exNonce).1,
    signature := [], seq := 1 }

/-- A merge state in which id "x" has been deleted at (lamport 1,
device "a"). -/
def exMergeStDel : MergeState :=
  { entryMap := fun _ => none,
    entryLamport := fun i => if i = "x" then some 1 else none,
    entryDeviceID := fun i => if i = "x" then "a" else "",
    deletedIDs := fun i => i = "x",
    entryScheme := noSchemes }

/-- A fresh engine state for the chain and pending-queue witnesses. -/
def exEngineState : EngineState :=
  { deviceID := "a", vaultID := [1], vaultKey := exVaultKey, keyEpoch := 1,
    lamport := 0,
    eventHead := { lastCounter := 0, lastHash := List.replicate 32 0 },
    entryScheme := noSchemes }

/-- Two concrete push requests. -/
def exPushInputs : List PushInput :=
  [ { entry := exEntryX, op := "upsert", eventID := [1], nonce := exNonce },
    { entry := exEntryX2, op := "upsert", eventID := [2], nonce := exNonce } ]

/-- An app state with an empty pending queue. -/
def exAppState0 : AppState :=
  { engine := exEngineState, pending := [] }

/-- An app state with one pending upsert for id "x". -/
def exAppState1 : AppState :=
  { engine := exEngineState,
    pending := [("x", { op := "upsert", entry := exEntryX })] }

/-- The ids whose re-push succeeds during a flush: the items with a
valid op whose transport attempt is successful. -/
def successIDs (okAt : Nat → Bool) :
    List (String × PendingEntry) → Nat → List String
  | [], _ => []
  | (_, item) :: rest, i =>
      if (item.op = "upsert" ∨ item.op = "delete") ∧ okAt i = true then
        item.entry.id :: successIDs okAt rest (i + 1)
      else successIDs okAt rest (i + 1)

/-! ## Helper lemmas -/

theorem update_self {α : Type} (f : String → α) (k : String) (v : α) :
    update f k v k = v := by
  simp [update]

theorem update_apply_ne {α : Type} (f : String → α) (k x : String) (v : α)
    (h : ¬x = k) : update f k v x = f x := by
  simp [update, h]

/-! ## C9: leave-vault clears exactly the vault-scoped state -/

/-- C9: handleLeaveVault clears the vault-scoped sync_meta scalars
(vault_id, the wrapped vault key, key_epoch, owner_device_id,
member_seq, member_head_hash, sync_cursor, lamport), empties the
verified-member, event-head and pending-entry buckets, and leaves the
device identity (device_id, signing and box keypairs) in sync_meta
unchanged. -/
theorem forgor_C9 (st : StoreState) :
    (handleLeaveVault st).meta "vault_id" = none ∧
    (handleLeaveVault st).meta "vault_key_enc" = none ∧
    (handleLeaveVault st).meta "key_epoch" = none ∧
    (handleLeaveVault st).meta "owner_device_id" = none ∧
    (handleLeaveVault st).meta "member_seq" = none ∧
    (handleLeaveVault st).meta "member_head_hash" = none ∧
    (handleLeaveVault st).meta "sync_cursor" = none ∧
    (handleLeaveVault st).meta "lamport" = none ∧
    (handleLeaveVault st).members = (fun _ => none) ∧
    (handleLeaveVault st).eventHeads = (fun _ => none) ∧
    (handleLeaveVault st).pending = (fun _ => none) ∧
    (handleLeaveVault st).meta "device_id" = st.meta "device_id" ∧
    (handleLeaveVault st).meta "pubkey_sign" = st.meta "pubkey_sign" ∧
    (handleLeaveVault st).meta "privkey_sign_enc" = st.meta "privkey_sign_enc" ∧
    (handleLeaveVault st).meta "pubkey_box" = st.meta "pubkey_box" ∧
    (handleLeaveVault st).meta "privkey_box_enc" = st.meta "privkey_box_enc" ∧
    (handleLeaveVault st).meta "server_url" = st.meta "server_url" := by
  refine ⟨?_, ?_, ?_, ?_, ?_, ?_, ?_, ?_, rfl, rfl, rfl, ?_, ?_, ?_, ?_, ?_, ?_⟩ <;>
    simp [handleLeaveVault, clearPendingEntries, clearEventHeads,
      clearVerifiedMembers, clearVaultState, vaultStateKeys]

/-! ## C10: a failed relay POST in PushEntry -/

/-- C10: when the relay POST fails, PushEntry returns the error and
leaves the stored event head and the entry_scheme table unchanged, but
the lamport clock has already been incremented and is not rolled
back. -/
theorem forgor_C10 (sha signFn : EventSignInput → List Nat)
    (st : EngineState) (entry : Entry) (op : String) (eventID nonce : List Nat)
    (hop : op = "upsert" ∨ op = "delete") :
    (pushEntry sha signFn st entry op eventID nonce false).1 =
      Except.error "failed to push event" ∧
    (pushEntry sha signFn st entry op eventID nonce false).2.eventHead =
      st.eventHead ∧
    (pushEntry sha signFn st entry op eventID nonce false).2.entryScheme =
      st.entryScheme ∧
    (pushEntry sha signFn st entry op eventID nonce false).2.lamport =
      incrementLamport st.lamport := by
  have hvalid : ¬¬(op = "upsert" ∨ op = "delete") := not_not_intro hop
  simp [pushEntry, hvalid, incrementLamport]

/-- Witness for C10 at a concrete state and entry. -/
theorem forgor_C10_witness :
    ("upsert" = "upsert" ∨ "upsert" = "delete") ∧
    ((pushEntry (fun _ => []) (fun _ => [])
        { deviceID := "a", vaultID := [1], vaultKey := exVaultKey,
          keyEpoch := 1, lamport := 4,
          eventHead := { lastCounter := 2, lastHash := [9] },
          entryScheme := noSchemes }
        exEntryX "upsert" [10] exNonce false).1 =
      Except.error "failed to push event" ∧
    (pushEntry (fun _ => []) (fun _ => [])
        { deviceID := "a", vaultID := [1], vaultKey := exVaultKey,
          keyEpoch := 1, lamport := 4,
          eventHead := { lastCounter := 2, lastHash := [9] },
          entryScheme := noSchemes }
        exEntryX "upsert" [10] exNonce false).2.eventHead =
      { lastCounter := 2, lastHash := [9] } ∧
    (pushEntry (fun _ => []) (fun _ => [])
        { deviceID := "a", vaultID := [1], vaultKey := exVaultKey,
          keyEpoch := 1, lamport := 4,
          eventHead := { lastCounter := 2, lastHash := [9] },
          entryScheme := noSchemes }
        exEntryX "upsert" [10] exNonce false).2.entryScheme = noSchemes ∧
    (pushEntry (fun _ => []) (fun _ => [])
        { deviceID := "a", vaultID := [1], vaultKey := exVaultKey,
          keyEpoch := 1, lamport := 4,
          eventHead := { lastCounter := 2, lastHash := [9] },
          entryScheme := noSchemes }
        exEntryX "upsert" [10] exNonce false).2.lamport = incrementLamport 4) :=
  ⟨Or.inl rfl,
    forgor_C10 (fun _ => []) (fun _ => [])
      { deviceID := "a", vaultID := [1], vaultKey := exVaultKey,
        keyEpoch := 1, lamport := 4,
        eventHead := { lastCounter := 2, lastHash := [9] },
        entryScheme := noSchemes }
      exEntryX "upsert" [10] exNonce (Or.inl rfl)⟩

/-! ## C4: round-trip of the v2 event payload encryption -/

/-- C4: decrypting the output of encryptEventPayload with
decryptEventPayload under the same vault key and epoch returns the same
(op, entry) and reports scheme "v2"; mapped over a pushed list, every
payload is recovered exactly. -/
theorem forgor_C4 (vaultKey : List Nat) (keyEpoch : Nat) (op : String)
    (entry : Entry) (nonce : List Nat)
    (hop : op = "upsert" ∨ op = "delete") :
    decryptEventPayload vaultKey
        (encryptEventPayload vaultKey keyEpoch op entry nonce).1
        (encryptEventPayload vaultKey keyEpoch op entry nonce).2 keyEpoch
      = some (op, entry, "v2") ∧
    ∀ (pairs : List (String × Entry)) (nf : String × Entry → List Nat),
      pairs.map (fun pe => decryptEventPayload vaultKey
          (encryptEventPayload vaultKey keyEpoch pe.1 pe.2 (nf pe)).1
          (encryptEventPayload vaultKey keyEpoch pe.1 pe.2 (nf pe)).2 keyEpoch)
        = pairs.map (fun pe => some (pe.1, pe.2, "v2")) := by
  constructor
  · simp [encryptEventPayload, decryptEventPayload,
      decryptEventPayloadXChaCha, xchachaOpen]
  · intro pairs nf
    refine List.map_congr_left ?_
    intro pe _
    simp [encryptEventPayload, decryptEventPayload,
      decryptEventPayloadXChaCha, xchachaOpen]

/-- Witness for C4 at a concrete payload. -/
theorem forgor_C4_witness :
    ("upsert" = "upsert" ∨ "upsert" = "delete") ∧
    (decryptEventPayload exVaultKey
        (encryptEventPayload exVaultKey 1 "upsert" exEntryX exNonce).1
        (encryptEventPayload exVaultKey 1 "upsert" exEntryX exNonce).2 1
      = some ("upsert", exEntryX, "v2") ∧
    ∀ (pairs : List (String × Entry)) (nf : String × Entry → List Nat),
      pairs.map (fun pe => decryptEventPayload exVaultKey
          (encryptEventPayload exVaultKey 1 pe.1 pe.2 (nf pe)).1
          (encryptEventPayload exVaultKey 1 pe.1 pe.2 (nf pe)).2 1)
        = pairs.map (fun pe => some (pe.1, pe.2, "v2"))) :=
  ⟨Or.inl rfl, forgor_C4 exVaultKey 1 "upsert" exEntryX exNonce (Or.inl rfl)⟩

/-! ## C5: decryption order and the legacy fallback -/

/-- C5: decryptEventPayload tries the XChaCha20-Poly1305 epoch key
first — a ciphertext it opens is reported with scheme "v2" — and only
on its failure tries the legacy secretbox scheme (24-byte nonce
required), reporting "legacy" on success; when both fail it returns
none and the event is skipped. -/
theorem forgor_C5 (vaultKey nonce : List Nat) (keyEpoch : Nat)
    (op : String) (entry : Entry) :
    decryptEventPayload vaultKey
        (Ciphertext.sealed AeadScheme.xchacha20poly1305
          (deriveEventKey vaultKey keyEpoch) nonce { op := op, entry := entry })
        nonce keyEpoch = some (op, entry, "v2") ∧
    (nonce.length = 24 →
      decryptEventPayload vaultKey
        (Ciphertext.sealed AeadScheme.xsalsa20poly1305
          (deriveLegacyEventKey vaultKey keyEpoch) nonce { op := op, entry := entry })
        nonce keyEpoch = some (op, entry, "legacy")) ∧
    (∀ ct, decryptEventPayloadXChaCha vaultKey keyEpoch nonce ct = none →
      decryptEventPayloadLegacy vaultKey keyEpoch nonce ct = none →
      decryptEventPayload vaultKey ct nonce keyEpoch = none) ∧
    (∀ ct pt, decryptEventPayloadXChaCha vaultKey keyEpoch nonce ct = some pt →
      decryptEventPayload vaultKey ct nonce keyEpoch =
        some (pt.op, pt.entry, "v2")) ∧
    (∀ ct pt, decryptEventPayloadXChaCha vaultKey keyEpoch nonce ct = none →
      decryptEventPayloadLegacy vaultKey keyEpoch nonce ct = some pt →
      decryptEventPayload vaultKey ct nonce keyEpoch =
        some (pt.op, pt.entry, "legacy")) := by
  refine ⟨?_, ?_, ?_, ?_, ?_⟩
  · simp [decryptEventPayload, decryptEventPayloadXChaCha, xchachaOpen]
  · intro hlen
    simp [decryptEventPayload, decryptEventPayloadXChaCha, xchachaOpen,
      decryptEventPayloadLegacy, secretboxOpen, NonceLength, hlen,
      deriveEventKey, deriveLegacyEventKey]
  · intro ct h1 h2
    simp [decryptEventPayload, h1, h2]
  · intro ct pt h1
    simp [decryptEventPayload, h1]
  · intro ct pt h1 h2
    simp [decryptEventPayload, h1, h2]

/-- Witness for C5 at a concrete legacy-sealed ciphertext. -/
theorem forgor_C5_witness :
    exNonce.length = 24 ∧
    decryptEventPayload exVaultKey
        (Ciphertext.sealed AeadScheme.xsalsa20poly1305
          (deriveLegacyEventKey exVaultKey 1) exNonce
          { op := "upsert", entry := exEntryX })
        exNonce 1 = some ("upsert", exEntryX, "legacy") :=
  ⟨by decide, ((forgor_C5 exVaultKey exNonce 1 "upsert" exEntryX).2.1) (by decide)⟩

/-! ## Merge-step lemmas shared by C1 and C2 -/

theorem winsAgainst_of_none (st : MergeState) (id : String) (l : Nat)
    (d : String) (h : st.entryLamport id = none) :
    winsAgainst st id l d = true := by
  simp [winsAgainst, h]

theorem winsAgainst_of_some (st : MergeState) (id : String) (l l0 : Nat)
    (d : String) (h : st.entryLamport id = some l0) :
    (winsAgainst st id l d = true ↔
      (l0 < l ∨ (l = l0 ∧ st.entryDeviceID id < d))) := by
  simp [winsAgainst, h]

theorem mergeEventOp_delete_win (st : MergeState) (e : Entry) (l : Nat)
    (d s : String) (h : winsAgainst st e.id l d = true) :
    mergeEventOp st "delete" e l d s =
      { st with
        deletedIDs := update st.deletedIDs e.id true,
        entryMap := update st.entryMap e.id none,
        entryLamport := update st.entryLamport e.id (some l),
        entryDeviceID := update st.entryDeviceID e.id d,
        entryScheme := update st.entryScheme e.id none } := by
  simp [mergeEventOp, h]

theorem mergeEventOp_delete_lose (st : MergeState) (e : Entry) (l : Nat)
    (d s : String) (h : winsAgainst st e.id l d = false) :
    mergeEventOp st "delete" e l d s = st := by
  simp [mergeEventOp, h]

theorem mergeEventOp_upsert_win_free (st : MergeState) (e : Entry) (l : Nat)
    (d s : String) (hw : winsAgainst st e.id l d = true)
    (hd : st.deletedIDs e.id = false) :
    mergeEventOp st "upsert" e l d s =
      { st with
        entryMap := update st.entryMap e.id (some e),
        entryLamport := update st.entryLamport e.id (some l),
        entryDeviceID := update st.entryDeviceID e.id d,
        entryScheme := update st.entryScheme e.id (some s) } := by
  simp [mergeEventOp, hw, hd]

theorem mergeEventOp_upsert_blocked (st : MergeState) (e : Entry) (l : Nat)
    (d s : String) (hd : st.deletedIDs e.id = true) :
    mergeEventOp st "upsert" e l d s = st := by
  simp [mergeEventOp, hd]

theorem mergeEventOp_upsert_lose (st : MergeState) (e : Entry) (l : Nat)
    (d s : String) (hw : winsAgainst st e.id l d = false) :
    mergeEventOp st "upsert" e l d s = st := by
  simp [mergeEventOp, hw]

/-! ## C1: the win order and the permanence of deletion marks -/

/-- C1 (amended): an event wins against an existing record iff its
lamport is strictly greater, or the lamports tie and its device id is
lexicographically greater (and any event wins when no record exists
yet).  A winning delete removes the id, marks it deleted and records
(lamport, device_id).  But once an id carries the deleted mark, every
subsequent upsert for it in the same merge — winning or losing — is
ignored; a winning upsert installs the entry only while the id is
unmarked, and a losing upsert is always ignored. -/
theorem forgor_C1 :
    (∀ (st : MergeState) (id : String) (l l0 : Nat) (d : String),
        st.entryLamport id = some l0 →
        (winsAgainst st id l d = true ↔
          (l0 < l ∨ (l = l0 ∧ st.entryDeviceID id < d)))) ∧
    (∀ (st : MergeState) (id : String) (l : Nat) (d : String),
        st.entryLamport id = none → winsAgainst st id l d = true) ∧
    (∀ (st : MergeState) (e : Entry) (l : Nat) (d s : String),
        winsAgainst st e.id l d = true →
        (mergeEventOp st "delete" e l d s).entryMap e.id = none ∧
        (mergeEventOp st "delete" e l d s).deletedIDs e.id = true ∧
        (mergeEventOp st "delete" e l d s).entryLamport e.id = some l ∧
        (mergeEventOp st "delete" e l d s).entryDeviceID e.id = d) ∧
    (∀ (st : MergeState) (e : Entry) (l : Nat) (d s : String),
        st.deletedIDs e.id = true →
        mergeEventOp st "upsert" e l d s = st) ∧
    (∀ (st : MergeState) (e : Entry) (l : Nat) (d s : String),
        st.deletedIDs e.id = false → winsAgainst st e.id l d = true →
        (mergeEventOp st "upsert" e l d s).entryMap e.id = some e) ∧
    (∀ (st : MergeState) (e : Entry) (l : Nat) (d s : String),
        winsAgainst st e.id l d = false →
        mergeEventOp st "upsert" e l d s = st) := by
  refine ⟨?_, ?_, ?_, ?_, ?_, ?_⟩
  · intro st id l l0 d h
    exact winsAgainst_of_some st id l l0 d h
  · intro st id l d h
    exact winsAgainst_of_none st id l d h
  · intro st e l d s h
    rw [mergeEventOp_delete_win st e l d s h]
    exact ⟨update_self _ _ _, update_self _ _ _, update_self _ _ _,
      update_self _ _ _⟩
  · intro st e l d s h
    exact mergeEventOp_upsert_blocked st e l d s h
  · intro st e l d s hd hw
    rw [mergeEventOp_upsert_win_free st e l d s hw hd]
    exact update_self _ _ _
  · intro st e l d s hw
    exact mergeEventOp_upsert_lose st e l d s hw

/-- Counterexample for C1 as stated: in the batch [delete x at
(1, "a"), upsert x at (2, "b")], the delete wins first, and the later
upsert wins against the recorded (1, "a") under the (lamport,
device_id) order — yet SyncEntries does not install its entry: the id
remains absent from the result map. -/
theorem forgor_C1_counterexample :
    lexWins 2 "b" 1 "a" ∧
    (syncEntries exCtx 0 0 [] [exDeleteEvent] noSchemes).merge.deletedIDs "x" = true ∧
    (syncEntries exCtx 0 0 [] [exDeleteEvent, exUpsertEvent] noSchemes).merge.entryMap "x" = none ∧
    ¬((syncEntries exCtx 0 0 [] [exDeleteEvent, exUpsertEvent] noSchemes).merge.entryMap "x"
        = some exEntryX2) := by
  refine ⟨Or.inl (by decide), by decide, by decide, by decide⟩

/-- Witness for C1 at a concrete deleted-marked state: a winning upsert
for the marked id "x" is ignored. -/
theorem forgor_C1_witness :
    exMergeStDel.deletedIDs exEntryX2.id = true ∧
    mergeEventOp exMergeStDel "upsert" exEntryX2 2 "b" "v2" = exMergeStDel :=
  ⟨by decide,
    forgor_C1.2.2.2.1 exMergeStDel exEntryX2 2 "b" "v2" (by decide)⟩

/-! ## C2: order-independence of the two-event merge -/

theorem lexWins_total (la lb : Nat) (da db : String)
    (hne : ¬(la = lb ∧ da = db)) :
    lexWins la da lb db ↔ ¬lexWins lb db la da := by
  unfold lexWins
  constructor
  · rintro (h | ⟨heq, hd⟩)
    · rintro (h2 | ⟨h2, _⟩)
      · exact Nat.lt_asymm h h2
      · exact absurd (h2 ▸ h) (lt_irrefl _)
    · rintro (h2 | ⟨_, h3⟩)
      · exact absurd (heq ▸ h2) (lt_irrefl _)
      · exact absurd (lt_trans hd h3) (lt_irrefl _)
  · intro h
    rcases Nat.lt_trichotomy lb la with h1 | h1 | h1
    · exact Or.inl h1
    · rcases lt_trichotomy db da with h2 | h2 | h2
      · exact Or.inr ⟨h1.symm, h2⟩
      · exact absurd ⟨h1.symm, h2.symm⟩ hne
      · exact absurd (Or.inr ⟨h1, h2⟩) h
    · exact absurd (Or.inl h1) h

/-- The two-event merge core: starting from a state with no record and
no deletion mark for the id, merging two events for the same id whose
(lamport, device_id) pairs differ yields, at that id, the winner's
entry for an upsert winner and absence for a delete winner — except in
the excluded case where a winning upsert meets a losing delete. -/
theorem mergeTwo_entryMap (st : MergeState) (ea eb : Entry)
    (la lb : Nat) (da db : String) (opa opb sa sb : String)
    (h0 : st.entryLamport ea.id = none) (hdel : st.deletedIDs ea.id = false)
    (hib : eb.id = ea.id)
    (hopa : opa = "upsert" ∨ opa = "delete")
    (hopb : opb = "upsert" ∨ opb = "delete")
    (hne : ¬(la = lb ∧ da = db))
    (hexc1 : ¬(opa = "upsert" ∧ opb = "delete" ∧ lexWins la da lb db))
    (hexc2 : ¬(opb = "upsert" ∧ opa = "delete" ∧ lexWins lb db la da)) :
    (mergeEventOp (mergeEventOp st opa ea la da sa) opb eb lb db sb).entryMap ea.id =
      (if lexWins la da lb db then (if opa = "upsert" then some ea else none)
       else (if opb = "upsert" then some eb else none)) := by
  have hw1 : winsAgainst st ea.id la da = true := winsAgainst_of_none st ea.id la da h0
  have htot := lexWins_total la lb da db hne
  rcases hopa with hA | hA <;> rcases hopb with hB | hB <;> subst hA <;> subst hB
  · -- upsert then upsert
    rw [mergeEventOp_upsert_win_free st ea la da sa hw1 hdel]
    set st1 : MergeState :=
      { st with
        entryMap := update st.entryMap ea.id (some ea),
        entryLamport := update st.entryLamport ea.id (some la),
        entryDeviceID := update st.entryDeviceID ea.id da,
        entryScheme := update st.entryScheme ea.id (some sa) } with hst1
    have hrec : st1.entryLamport ea.id = some la := update_self _ _ _
    have hdev : st1.entryDeviceID ea.id = da := update_self _ _ _
    have hdel1 : st1.deletedIDs ea.id = false := hdel
    have hwin2 : winsAgainst st1 eb.id lb db = true ↔ lexWins lb db la da := by
      rw [hib]
      rw [winsAgainst_of_some st1 ea.id lb la db hrec, hdev]
      unfold lexWins
      tauto
    by_cases hw : lexWins lb db la da
    · rw [mergeEventOp_upsert_win_free st1 eb lb db sb (hwin2.mpr hw)
        (hib ▸ hdel1)]
      rw [hib]
      rw [if_neg (fun h2 => (htot.mp h2) hw), if_pos rfl]
      exact update_self _ _ _
    · have hfalse : winsAgainst st1 eb.id lb db = false := by
        cases h2 : winsAgainst st1 eb.id lb db
        · rfl
        · exact absurd (hwin2.mp h2) hw
      rw [mergeEventOp_upsert_lose st1 eb lb db sb hfalse]
      rw [if_pos (htot.mpr hw), if_pos rfl, hst1]
      exact update_self _ _ _
  · -- upsert then delete: the delete must be the winner here
    have hnw : ¬lexWins la da lb db := fun h => hexc1 ⟨rfl, rfl, h⟩
    have hw : lexWins lb db la da := by
      by_contra hc
      exact hnw (htot.mpr hc)
    rw [mergeEventOp_upsert_win_free st ea la da sa hw1 hdel]
    set st1 : MergeState :=
      { st with
        entryMap := update st.entryMap ea.id (some ea),
        entryLamport := update st.entryLamport ea.id (some la),
        entryDeviceID := update st.entryDeviceID ea.id da,
        entryScheme := update st.entryScheme ea.id (some sa) } with hst1
    have hrec : st1.entryLamport ea.id = some la := update_self _ _ _
    have hdev : st1.entryDeviceID ea.id = da := update_self _ _ _
    have hwin2 : winsAgainst st1 eb.id lb db = true := by
      rw [hib, winsAgainst_of_some st1 ea.id lb la db hrec, hdev]
      unfold lexWins at hw
      tauto
    rw [mergeEventOp_delete_win st1 eb lb db sb hwin2, hib]
    rw [if_neg hnw, if_neg (by decide : ¬("delete" : String) = "upsert")]
    exact update_self _ _ _
  · -- delete then upsert: the upsert is blocked by the deletion mark
    have hnw : ¬lexWins lb db la da := fun h => hexc2 ⟨rfl, rfl, h⟩
    have hw : lexWins la da lb db := htot.mpr hnw
    rw [mergeEventOp_delete_win st ea la da sa hw1]
    set st1 : MergeState :=
      { st with
        deletedIDs := update st.deletedIDs ea.id true,
        entryMap := update st.entryMap ea.id none,
        entryLamport := update st.entryLamport ea.id (some la),
        entryDeviceID := update st.entryDeviceID ea.id da,
        entryScheme := update st.entryScheme ea.id none } with hst1
    have hdel1 : st1.deletedIDs eb.id = true := by
      rw [hib]; exact update_self _ _ _
    rw [mergeEventOp_upsert_blocked st1 eb lb db sb hdel1]
    have hmap1 : st1.entryMap ea.id = none := update_self _ _ _
    rw [hmap1, if_pos hw,
      if_neg (by decide : ¬("delete" : String) = "upsert")]
  · -- delete then delete: the id ends absent either way
    rw [mergeEventOp_delete_win st ea la da sa hw1]
    set st1 : MergeState :=
      { st with
        deletedIDs := update st.deletedIDs ea.id true,
        entryMap := update st.entryMap ea.id none,
        entryLamport := update st.entryLamport ea.id (some la),
        entryDeviceID := update st.entryDeviceID ea.id da,
        entryScheme := update st.entryScheme ea.id none } with hst1
    have hmap1 : st1.entryMap ea.id = none := update_self _ _ _
    have hres : (mergeEventOp st1 "delete" eb lb db sb).entryMap ea.id = none := by
      cases h : winsAgainst st1 eb.id lb db
      · rw [mergeEventOp_delete_lose st1 eb lb db sb h]; exact hmap1
      · rw [mergeEventOp_delete_win st1 eb lb db sb h, hib]
        exact update_self _ _ _
    simp only [if_neg (show ¬("delete" : String) = "upsert" by decide), ite_self]
    exact hres

theorem processEvent_merge (ctx : SyncCtx) (ls : LoopState) (ev : Event)
    (op s : String) (e : Entry)
    (h1 : ctx.verifiedMembers ev.deviceID = true)
    (h2 : ctx.sigOk ev = true)
    (h3 : decryptEventPayload ctx.vaultKey ev.ciphertext ev.nonce ev.keyEpoch
      = some (op, e, s)) :
    (processEvent ctx ls ev).merge =
      mergeEventOp ls.merge op e ev.lamport ev.deviceID s := by
  simp [processEvent, h1, h2, h3]

/-- C2 (amended): for two verified, decryptable events a and b for the
same entry id with distinct (lamport, device_id) pairs, SyncEntries
resolves the id to the (lamport, device_id)-lexicographic winner — the
winner's entry when the winner is an upsert, absence when it is a
delete — and the result at that id is the same for both arrival orders,
except in the case where the winner is an upsert and the loser a
delete: there a delete arriving first suppresses the winning upsert
(see the counterexample). -/
theorem forgor_C2 (ctx : SyncCtx) (c0 l0 : Nat) (locals : List Entry)
    (scheme0 : String → Option String) (a b : Event)
    (opa opb sa sb : String) (ea eb : Entry)
    (hma : ctx.verifiedMembers a.deviceID = true) (hsa : ctx.sigOk a = true)
    (hda : decryptEventPayload ctx.vaultKey a.ciphertext a.nonce a.keyEpoch
      = some (opa, ea, sa))
    (hmb : ctx.verifiedMembers b.deviceID = true) (hsb : ctx.sigOk b = true)
    (hdb : decryptEventPayload ctx.vaultKey b.ciphertext b.nonce b.keyEpoch
      = some (opb, eb, sb))
    (hib : eb.id = ea.id)
    (hopa : opa = "upsert" ∨ opa = "delete")
    (hopb : opb = "upsert" ∨ opb = "delete")
    (hne : ¬(a.lamport = b.lamport ∧ a.deviceID = b.deviceID))
    (hexc1 : ¬(opa = "upsert" ∧ opb = "delete" ∧
      lexWins a.lamport a.deviceID b.lamport b.deviceID))
    (hexc2 : ¬(opb = "upsert" ∧ opa = "delete" ∧
      lexWins b.lamport b.deviceID a.lamport a.deviceID)) :
    (syncEntries ctx c0 l0 locals [a, b] scheme0).merge.entryMap ea.id =
      (syncEntries ctx c0 l0 locals [b, a] scheme0).merge.entryMap ea.id ∧
    (syncEntries ctx c0 l0 locals [a, b] scheme0).merge.entryMap ea.id =
      (if lexWins a.lamport a.deviceID b.lamport b.deviceID then
        (if opa = "upsert" then some ea else none)
       else (if opb = "upsert" then some eb else none)) := by
  have hne2 : ¬(b.lamport = a.lamport ∧ b.deviceID = a.deviceID) := by
    intro h; exact hne ⟨h.1.symm, h.2.symm⟩
  have hinit0 :
      (initialLoopState c0 l0 locals scheme0).merge.entryLamport ea.id = none := rfl
  have hinitdel :
      (initialLoopState c0 l0 locals scheme0).merge.deletedIDs ea.id = false := rfl
  have hab : (syncEntries ctx c0 l0 locals [a, b] scheme0).merge =
      mergeEventOp
        (mergeEventOp (initialLoopState c0 l0 locals scheme0).merge
          opa ea a.lamport a.deviceID sa)
        opb eb b.lamport b.deviceID sb := by
    show (List.foldl (processEvent ctx)
      (initialLoopState c0 l0 locals scheme0) [a, b]).merge = _
    rw [List.foldl_cons, List.foldl_cons, List.foldl_nil]
    rw [processEvent_merge ctx _ b opb sb eb hmb hsb hdb]
    rw [processEvent_merge ctx _ a opa sa ea hma hsa hda]
  have hba : (syncEntries ctx c0 l0 locals [b, a] scheme0).merge =
      mergeEventOp
        (mergeEventOp (initialLoopState c0 l0 locals scheme0).merge
          opb eb b.lamport b.deviceID sb)
        opa ea a.lamport a.deviceID sa := by
    show (List.foldl (processEvent ctx)
      (initialLoopState c0 l0 locals scheme0) [b, a]).merge = _
    rw [List.foldl_cons, List.foldl_cons, List.foldl_nil]
    rw [processEvent_merge ctx _ a opa sa ea hma hsa hda]
    rw [processEvent_merge ctx _ b opb sb eb hmb hsb hdb]
  have habv := mergeTwo_entryMap
    (initialLoopState c0 l0 locals scheme0).merge ea eb
    a.lamport b.lamport a.deviceID b.deviceID opa opb sa sb
    hinit0 hinitdel hib hopa hopb hne hexc1 hexc2
  have hinit0b :
      (initialLoopState c0 l0 locals scheme0).merge.entryLamport eb.id = none := by
    rw [hib]; exact hinit0
  have hinitdelb :
      (initialLoopState c0 l0 locals scheme0).merge.deletedIDs eb.id = false := by
    rw [hib]; exact hinitdel
  have hbav := mergeTwo_entryMap
    (initialLoopState c0 l0 locals scheme0).merge eb ea
    b.lamport a.lamport b.deviceID a.deviceID opb opa sb sa
    hinit0b hinitdelb (hib.symm) hopb hopa hne2 hexc2 hexc1
  rw [hib] at hbav
  have htot := lexWins_total a.lamport b.lamport a.deviceID b.deviceID hne
  constructor
  · rw [hab, hba, habv, hbav]
    by_cases hw : lexWins a.lamport a.deviceID b.lamport b.deviceID
    · rw [if_pos hw, if_neg ((htot.mp hw))]
    · have hlb : lexWins b.lamport b.deviceID a.lamport a.deviceID := by
        by_contra hc
        exact hw (htot.mpr hc)
      rw [if_neg hw, if_pos hlb]
  · rw [hab, habv]

/-- Counterexample for C2 as stated: the winning upsert at (2, "b") and
the losing delete at (1, "a") for the same id "x" yield different
results under the two arrival orders — the delete-first order leaves
"x" absent, the upsert-first order keeps the upsert. -/
theorem forgor_C2_counterexample :
    ¬(exUpsertEvent.lamport = exDeleteEvent.lamport ∧
      exUpsertEvent.deviceID = exDeleteEvent.deviceID) ∧
    (syncEntries exCtx 0 0 [] [exDeleteEvent, exUpsertEvent] noSchemes).merge.entryMap "x"
      = none ∧
    (syncEntries exCtx 0 0 [] [exUpsertEvent, exDeleteEvent] noSchemes).merge.entryMap "x"
      = some exEntryX2 ∧
    ¬((syncEntries exCtx 0 0 [] [exDeleteEvent, exUpsertEvent] noSchemes).merge.entryMap "x"
      = (syncEntries exCtx 0 0 [] [exUpsertEvent, exDeleteEvent] noSchemes).merge.entryMap "x") := by
  refine ⟨by decide, by decide, by decide, by decide⟩

/-- Witness for C2 at two concrete upsert events: both arrival orders
resolve id "x" to the (lamport, device_id) winner. -/
theorem forgor_C2_witness :
    (syncEntries exCtx 0 0 [] [exUpsertEventA, exUpsertEvent] noSchemes).merge.entryMap exEntryX.id =
      (syncEntries exCtx 0 0 [] [exUpsertEvent, exUpsertEventA] noSchemes).merge.entryMap exEntryX.id ∧
    (syncEntries exCtx 0 0 [] [exUpsertEventA, exUpsertEvent] noSchemes).merge.entryMap exEntryX.id =
      (if lexWins exUpsertEventA.lamport exUpsertEventA.deviceID
          exUpsertEvent.lamport exUpsertEvent.deviceID then
        (if "upsert" = "upsert" then some exEntryX else none)
       else (if "upsert" = "upsert" then some exEntryX2 else none)) :=
  forgor_C2 exCtx 0 0 [] noSchemes exUpsertEventA exUpsertEvent
    "upsert" "upsert" "v2" "v2" exEntryX exEntryX2
    (by decide) (by decide) (by decide) (by decide) (by decide) (by decide)
    (by decide) (Or.inl rfl) (Or.inl rfl) (by decide)
    (fun h => by exact absurd h.2.1 (by decide))
    (fun h => by exact absurd h.2.1 (by decide))

/-! ## C6: the lamport clock after a pull-and-merge -/

theorem processEvent_maxLamport_le (ctx : SyncCtx) (ls : LoopState)
    (ev : Event) : ls.maxLamport ≤ (processEvent ctx ls ev).maxLamport := by
  unfold processEvent
  split
  · exact le_refl _
  split
  · exact le_refl _
  split
  · exact le_refl _
  simp only
  split
  · exact Nat.le_of_lt (by assumption)
  · exact le_refl _

theorem foldl_maxLamport_le (ctx : SyncCtx) (evs : List Event) :
    ∀ ls : LoopState, ls.maxLamport ≤
      (List.foldl (processEvent ctx) ls evs).maxLamport := by
  induction evs with
  | nil => intro ls; exact le_refl _
  | cons ev rest ih =>
      intro ls
      rw [List.foldl_cons]
      exact le_trans (processEvent_maxLamport_le ctx ls ev)
        (ih (processEvent ctx ls ev))

/-- C6 (amended): with `m` the running maximum lamport over the
successfully processed pulled events (seeded with the current clock
`l0`, so `l0 ≤ m`), SyncEntries persists `max(l0, m) + 1` — via
UpdateLamport, which atomically computes `max(current, observed) + 1` —
only when `m` strictly exceeds `l0`; otherwise the clock is left
unchanged, so the bump does not occur on every pull that processes
events. -/
theorem forgor_C6 (ctx : SyncCtx) (c0 l0 : Nat) (locals : List Entry)
    (evs : List Event) (scheme0 : String → Option String) :
    l0 ≤ (List.foldl (processEvent ctx)
      (initialLoopState c0 l0 locals scheme0) evs).maxLamport ∧
    (syncEntries ctx c0 l0 locals evs scheme0).lamport =
      (if l0 < (List.foldl (processEvent ctx)
          (initialLoopState c0 l0 locals scheme0) evs).maxLamport then
        max l0 ((List.foldl (processEvent ctx)
          (initialLoopState c0 l0 locals scheme0) evs).maxLamport) + 1
       else l0) ∧
    (∀ cur obs : Nat, updateLamport cur obs = max cur obs + 1) := by
  refine ⟨?_, ?_, ?_⟩
  · have h := foldl_maxLamport_le ctx evs (initialLoopState c0 l0 locals scheme0)
    exact h
  · show (if _ > l0 then updateLamport l0 _ else l0) = _
    by_cases h : l0 < (List.foldl (processEvent ctx)
        (initialLoopState c0 l0 locals scheme0) evs).maxLamport
    · rw [if_pos h, if_pos h, updateLamport, if_pos h,
        Nat.max_eq_right (Nat.le_of_lt h)]
    · rw [if_neg h, if_neg h]
  · intro cur obs
    unfold updateLamport
    split
    · rw [Nat.max_eq_right (Nat.le_of_lt (by assumption))]
    · rw [Nat.max_eq_left (Nat.le_of_not_lt (by assumption))]

/-- Counterexample for C6 as stated: a pull whose single event is
verified, decrypted and merged (it installs its entry) but whose
lamport (3) does not exceed the local clock (5) leaves the persisted
clock at 5, not at max(5, 3) + 1 = 6: the bump does not occur on every
pull that processes events. -/
theorem forgor_C6_counterexample :
    (syncEntries exCtx 0 5 [] [exLowLamportEvent] noSchemes).merge.entryMap "x"
      = some exEntryX ∧
    (syncEntries exCtx 0 5 [] [exLowLamportEvent] noSchemes).lamport = 5 ∧
    ¬((syncEntries exCtx 0 5 [] [exLowLamportEvent] noSchemes).lamport =
      max 5 exLowLamportEvent.lamport + 1) := by
  refine ⟨by decide, by decide, by decide⟩

/-! ## C3: chain integrity of successive pushes -/

theorem pushEntry_true_facts (sha signFn : EventSignInput → List Nat)
    (st : EngineState) (entry : Entry) (op : String)
    (eventID nonce : List Nat) (hop : op = "upsert" ∨ op = "delete") :
    ∃ ev st2, pushEntry sha signFn st entry op eventID nonce true =
        (Except.ok ev, st2) ∧
      ev.counter = st.eventHead.lastCounter + 1 ∧
      ev.prevHash = st.eventHead.lastHash ∧
      st2.eventHead =
        { lastCounter := ev.counter, lastHash := sha (eventSignInput ev) } := by
  rcases hop with h | h <;> subst h
  · exact ⟨_, _, rfl, rfl, rfl, rfl⟩
  · exact ⟨_, _, rfl, rfl, rfl, rfl⟩

theorem pushAll_spec (sha signFn : EventSignInput → List Nat) :
    ∀ (inputs : List PushInput) (st : EngineState),
      (∀ inp ∈ inputs, inp.op = "upsert" ∨ inp.op = "delete") →
      (pushAll sha signFn st inputs).1.length = inputs.length ∧
      chainFrom sha st.eventHead (pushAll sha signFn st inputs).1 ∧
      (pushAll sha signFn st inputs).2.eventHead =
        headAfter sha st.eventHead (pushAll sha signFn st inputs).1 := by
  intro inputs
  induction inputs with
  | nil => exact fun st _ => ⟨rfl, trivial, rfl⟩
  | cons inp rest ih =>
      intro st hops
      have hop := hops inp (List.mem_cons_self _ _)
      have hrest := fun i hi => hops i (List.mem_cons_of_mem _ hi)
      obtain ⟨ev, st2, heq, hc, hp, hh⟩ :=
        pushEntry_true_facts sha signFn st inp.entry inp.op inp.eventID
          inp.nonce hop
      have hstep : pushAll sha signFn st (inp :: rest) =
          (ev :: (pushAll sha signFn st2 rest).1,
            (pushAll sha signFn st2 rest).2) := by
        simp only [pushAll]
        rw [heq]
      obtain ⟨hlen, hchain, hhead⟩ := ih st2 hrest
      rw [hh] at hchain
      refine ⟨?_, ?_, ?_⟩
      · rw [hstep]
        simp [hlen]
      · rw [hstep]
        exact ⟨hc, hp, hchain⟩
      · rw [hstep]
        show (pushAll sha signFn st2 rest).2.eventHead = _
        rw [hhead]
        show headAfter sha st2.eventHead _ =
          headAfter sha
            { lastCounter := ev.counter, lastHash := sha (eventSignInput ev) } _
        rw [hh]

theorem chainFrom_first (sha : EventSignInput → List Nat)
    (head : EventHead) (evs : List Event) (h : chainFrom sha head evs)
    (hpos : 0 < evs.length) :
    (evs.getD 0 default).counter = head.lastCounter + 1 ∧
    (evs.getD 0 default).prevHash = head.lastHash := by
  cases evs with
  | nil => exact absurd hpos (by simp)
  | cons e rest => exact ⟨h.1, h.2.1⟩

theorem chainFrom_succ (sha : EventSignInput → List Nat) :
    ∀ (evs : List Event) (head : EventHead), chainFrom sha head evs →
      ∀ i, i + 1 < evs.length →
        (evs.getD (i + 1) default).counter =
          (evs.getD i default).counter + 1 ∧
        (evs.getD (i + 1) default).prevHash =
          sha (eventSignInput (evs.getD i default)) := by
  intro evs
  induction evs with
  | nil => intro head _ i hi; exact absurd hi (by simp)
  | cons e rest ih =>
      intro head h i hi
      rcases h with ⟨h1, h2, hrest⟩
      cases i with
      | zero =>
          have hpos : 0 < rest.length := by
            simpa using hi
          have := chainFrom_first sha _ rest hrest hpos
          simpa using this
      | succ j =>
          have hj : j + 1 < rest.length := by
            simpa using hi
          simpa using ih _ hrest j hj

theorem headAfter_getLast (sha : EventSignInput → List Nat) :
    ∀ (evs : List Event) (head : EventHead) (ev : Event),
      evs.getLast? = some ev →
      headAfter sha head evs =
        { lastCounter := ev.counter, lastHash := sha (eventSignInput ev) } := by
  intro evs
  induction evs with
  | nil => intro head ev h; exact absurd h (by simp)
  | cons e rest ih =>
      intro head ev h
      cases rest with
      | nil =>
          have : ev = e := by
            simpa [List.getLast?] using h.symm
          subst this
          rfl
      | cons r rs =>
          have h2 : (r :: rs).getLast? = some ev := by
            simpa [List.getLast?_cons_cons] using h
          show headAfter sha
            { lastCounter := e.counter, lastHash := sha (eventSignInput e) }
            (r :: rs) =
            { lastCounter := ev.counter, lastHash := sha (eventSignInput ev) }
          exact ih _ ev h2

/-- C3: starting from a fresh event head (counter 0, all-zero hash), a
sequence of successful PushEntry calls produces events whose counters
ascend from 1 in steps of one, whose first prev_hash is all-zero, whose
later prev_hashes equal the hash of the previous event's signed bytes,
and whose final stored event head is the last event's (counter, hash of
signed bytes). -/
theorem forgor_C3 (sha signFn : EventSignInput → List Nat)
    (st : EngineState) (inputs : List PushInput)
    (hfresh : st.eventHead =
      { lastCounter := 0, lastHash := List.replicate 32 0 })
    (hops : ∀ inp ∈ inputs, inp.op = "upsert" ∨ inp.op = "delete") :
    chainSpec sha signFn st inputs := by
  obtain ⟨hlen, hchain, hhead⟩ := pushAll_spec sha signFn inputs st hops
  refine ⟨hlen, ?_, ?_, ?_⟩
  · intro hpos
    have h := chainFrom_first sha _ _ hchain hpos
    rw [hfresh] at h
    exact h
  · intro i hi
    exact chainFrom_succ sha _ _ hchain i hi
  · intro ev hlast
    rw [hhead]
    exact headAfter_getLast sha _ _ ev hlast

/-- Witness for C3 at a fresh state and two concrete pushes. -/
theorem forgor_C3_witness :
    exEngineState.eventHead =
      { lastCounter := 0, lastHash := List.replicate 32 0 } ∧
    (∀ inp ∈ exPushInputs, inp.op = "upsert" ∨ inp.op = "delete") ∧
    chainSpec (fun _ => [0]) (fun _ => [1]) exEngineState exPushInputs :=
  ⟨rfl, by decide,
    forgor_C3 (fun _ => [0]) (fun _ => [1]) exEngineState exPushInputs rfl
      (by decide)⟩

/-! ## C7: the invite-already-used no-op in the claim-accept loop -/

theorem charsHavePrefixAt_map (f : Char → Char) :
    ∀ (pat hay : List Char), charsHavePrefixAt pat hay = true →
      charsHavePrefixAt (pat.map f) (hay.map f) = true := by
  intro pat
  induction pat with
  | nil => intro hay _; rfl
  | cons p ps ih =>
      intro hay h
      cases hay with
      | nil => exact absurd h (by simp [charsHavePrefixAt])
      | cons c cs =>
          rw [charsHavePrefixAt, Bool.and_eq_true, decide_eq_true_eq] at h
          rw [List.map_cons, List.map_cons, charsHavePrefixAt,
            Bool.and_eq_true, decide_eq_true_eq]
          exact ⟨congrArg f h.1, ih cs h.2⟩

theorem charsContain_map (f : Char → Char) (pat : List Char) :
    ∀ hay : List Char, charsContain pat hay = true →
      charsContain (pat.map f) (hay.map f) = true := by
  intro hay
  induction hay with
  | nil =>
      intro h
      cases pat with
      | nil => rfl
      | cons p ps => exact absurd h (by simp [charsContain, charsHavePrefixAt])
  | cons c cs ih =>
      intro h
      rw [charsContain, Bool.or_eq_true] at h
      rw [List.map_cons, charsContain, Bool.or_eq_true]
      rcases h with h | h
      · exact Or.inl (by
          have := charsHavePrefixAt_map f pat (c :: cs) h
          simpa using this)
      · exact Or.inr (ih h)

theorem stringContains_strToLower (msg pat : String)
    (hpat : pat.data.map Char.toLower = pat.data)
    (h : stringContains msg pat = true) :
    stringContains (strToLower msg) pat = true := by
  unfold stringContains at h ⊢
  have h2 := charsContain_map Char.toLower pat.data msg.data h
  rw [hpat] at h2
  exact h2

theorem isInviteAlreadyUsed_of (code : String) (status : Nat) (msg : String)
    (h : code = "invite_already_used" ∨
      (status = 409 ∧
        stringContains msg "invite has already been used" = true)) :
    isInviteAlreadyUsed (SyncError.api code status msg) = true := by
  rcases h with h | ⟨h1, h2⟩
  · simp [isInviteAlreadyUsed, h]
  · have hs := stringContains_strToLower msg _ (by decide) h2
    by_cases hc : code = "invite_already_used"
    · simp [isInviteAlreadyUsed, hc]
    · simp [isInviteAlreadyUsed, hc, h1, hs]

theorem acceptPC_cons (v : String)
    (accept : InviteClaim → Except SyncError Unit) (c : InviteClaim)
    (rest : List InviteClaim) :
    acceptPendingInviteClaims v accept (c :: rest) =
      (if ¬(c.vaultID = v) then acceptPendingInviteClaims v accept rest
       else
        match accept c with
        | Except.ok _ =>
            match acceptPendingInviteClaims v accept rest with
            | Except.ok accepted => Except.ok (c :: accepted)
            | Except.error e => Except.error e
        | Except.error e =>
            if isInviteAlreadyUsed e then
              acceptPendingInviteClaims v accept rest
            else Except.error e) := rfl

theorem acceptClaims_skip (v : String)
    (accept : InviteClaim → Except SyncError Unit) (c : InviteClaim)
    (e : SyncError) (hacc : accept c = Except.error e)
    (hused : isInviteAlreadyUsed e = true) :
    ∀ (l1 l2 : List InviteClaim),
      acceptPendingInviteClaims v accept (l1 ++ c :: l2) =
        acceptPendingInviteClaims v accept (l1 ++ l2) := by
  intro l1
  induction l1 with
  | nil =>
      intro l2
      simp only [List.nil_append]
      rw [acceptPC_cons]
      by_cases hv : c.vaultID = v
      · rw [if_neg (not_not_intro hv), hacc]
        simp [hused]
      · rw [if_pos hv]
  | cons d rest ih =>
      intro l2
      simp only [List.cons_append]
      rw [acceptPC_cons, acceptPC_cons, ih l2]

theorem acceptClaims_abort (v : String)
    (accept : InviteClaim → Except SyncError Unit) (c : InviteClaim)
    (e : SyncError) (hv : c.vaultID = v) (hacc : accept c = Except.error e)
    (hused : isInviteAlreadyUsed e = false) :
    ∀ (l1 l2 : List InviteClaim),
      (∀ d ∈ l1, d.vaultID = v →
        (accept d = Except.ok () ∨
          ∃ e2, accept d = Except.error e2 ∧ isInviteAlreadyUsed e2 = true)) →
      acceptPendingInviteClaims v accept (l1 ++ c :: l2) = Except.error e := by
  intro l1
  induction l1 with
  | nil =>
      intro l2 _
      simp only [List.nil_append]
      rw [acceptPC_cons, if_neg (not_not_intro hv), hacc]
      simp [hused]
  | cons d rest ih =>
      intro l2 hall
      have hd := hall d (List.mem_cons_self _ _)
      have hrest := fun x hx hv2 => hall x (List.mem_cons_of_mem _ hx) hv2
      simp only [List.cons_append]
      rw [acceptPC_cons]
      by_cases hvd : d.vaultID = v
      · rw [if_neg (not_not_intro hvd)]
        rcases hd hvd with hok | ⟨e2, he2, hu2⟩
        · rw [hok, ih l2 hrest]
        · rw [he2]
          simp only [hu2, if_true]
          exact ih l2 hrest
      · rw [if_pos hvd]
        exact ih l2 hrest

/-- C7: an error whose code is "invite_already_used", or whose HTTP
status is 409 with a message containing "invite has already been used",
is recognised by isInviteAlreadyUsed; a claim whose accept fails with
such an error is skipped — it contributes no member_add and the loop's
outcome is that of the remaining claims — while a claim in this vault
whose accept fails with any other error aborts the loop with that
error (given that the earlier claims did not already abort). -/
theorem forgor_C7 (v code : String) (status : Nat) (msg : String)
    (hrec : code = "invite_already_used" ∨
      (status = 409 ∧
        stringContains msg "invite has already been used" = true)) :
    alreadyUsedNoOpSpec v code status msg := by
  refine ⟨isInviteAlreadyUsed_of code status msg hrec, ?_, ?_⟩
  · intro accept c l1 l2 hacc
    exact acceptClaims_skip v accept c _ hacc
      (isInviteAlreadyUsed_of code status msg hrec) l1 l2
  · intro accept c e2 l1 l2 hv hacc hu hall
    exact acceptClaims_abort v accept c e2 hv hacc hu l1 l2 hall

/-- Witness for C7 at a concrete HTTP 409 error whose message contains
the recognised phrase. -/
theorem forgor_C7_witness :
    ("conflict" = "invite_already_used" ∨
      ((409 : Nat) = 409 ∧
        stringContains "error: invite has already been used"
          "invite has already been used" = true)) ∧
    alreadyUsedNoOpSpec "vault1" "conflict" 409
      "error: invite has already been used" :=
  ⟨Or.inr ⟨rfl, by decide⟩,
    forgor_C7 "vault1" "conflict" 409 "error: invite has already been used"
      (Or.inr ⟨rfl, by decide⟩)⟩

/-! ## C8: the pending queue and its flush -/

theorem pushEntry_false_eq (sha signFn : EventSignInput → List Nat)
    (st : EngineState) (entry : Entry) (op : String)
    (eventID nonce : List Nat) (hop : op = "upsert" ∨ op = "delete") :
    pushEntry sha signFn st entry op eventID nonce false =
      (Except.error "failed to push event",
        { st with lamport := incrementLamport st.lamport }) := by
  rcases hop with h | h <;> subst h <;> rfl

theorem find_map_put (id : String) (v : PendingEntry) :
    ∀ l : List (String × PendingEntry),
      l.any (fun p => p.1 = id) = true →
      (l.map (fun p => if p.1 = id then (id, v) else p)).find?
        (fun q => q.1 = id) = some (id, v) := by
  intro l
  induction l with
  | nil => intro h; exact absurd h (by simp)
  | cons a t ih =>
      intro h
      by_cases ha : a.1 = id
      · simp [ha, List.find?]
      · have ht : t.any (fun p => p.1 = id) = true := by
          simpa [List.any_cons, ha] using h
        simpa [ha, List.find?] using ih ht

theorem find_append_put (id : String) (v : PendingEntry) :
    ∀ l : List (String × PendingEntry),
      l.any (fun p => p.1 = id) = false →
      (l ++ [(id, v)]).find? (fun q => q.1 = id) = some (id, v) := by
  intro l
  induction l with
  | nil => intro _; simp [List.find?]
  | cons a t ih =>
      intro h
      rw [List.any_cons, Bool.or_eq_false_iff] at h
      have ha : ¬(a.1 = id) := by simpa using h.1
      simpa [ha, List.find?] using ih h.2

theorem pendingPut_find (l : List (String × PendingEntry)) (id : String)
    (v : PendingEntry) :
    (pendingPut l id v).find? (fun q => q.1 = id) = some (id, v) := by
  unfold pendingPut
  by_cases h : l.any (fun p => p.1 = id) = true
  · rw [if_pos h]
    exact find_map_put id v l h
  · have h2 : l.any (fun p => p.1 = id) = false :=
      Bool.eq_false_iff.mpr h
    rw [if_neg (by simp [h2])]
    exact find_append_put id v l h2

theorem flushGo_cons (sha signFn : EventSignInput → List Nat)
    (supply : Nat → List Nat × List Nat) (okAt : Nat → Bool)
    (pid : String) (item : PendingEntry)
    (rest : List (String × PendingEntry)) (i : Nat) (fe : Option String)
    (ast : AppState) :
    flushGo sha signFn supply okAt ((pid, item) :: rest) i fe ast =
      (if ¬(item.op = "upsert" ∨ item.op = "delete") then
        flushGo sha signFn supply okAt rest (i + 1)
          (match fe with
            | none => some "invalid pending operation"
            | some m => some m) ast
      else
        match pushEntry sha signFn ast.engine item.entry item.op
            (supply i).1 (supply i).2 (okAt i) with
        | (Except.error msg, st1) =>
            let r := flushGo sha signFn supply okAt rest (i + 1)
              (match fe with | none => some msg | some m => some m)
              { engine := st1, pending := ast.pending }
            (r.1, r.2.1, (pid, item) :: r.2.2)
        | (Except.ok _, st1) =>
            let r := flushGo sha signFn supply okAt rest (i + 1) fe
              { engine := st1,
                pending := pendingRemove ast.pending item.entry.id }
            (r.1, r.2.1, (pid, item) :: r.2.2)) := rfl

theorem filter_remove_comb (id0 : String) (ids : List String) :
    ∀ P : List (String × PendingEntry),
      (P.filter (fun p => ¬(p.1 = id0))).filter
          (fun p => decide (¬p.1 ∈ ids)) =
        P.filter (fun p => decide (¬p.1 ∈ id0 :: ids)) := by
  intro P
  induction P with
  | nil => rfl
  | cons a t ihp =>
      by_cases h1 : a.1 = id0 <;> by_cases h2 : a.1 ∈ ids <;>
        simp [h1, h2, List.mem_cons, ihp, Bool.and_comm]

theorem flushGo_spec (sha signFn : EventSignInput → List Nat)
    (supply : Nat → List Nat × List Nat) (okAt : Nat → Bool) :
    ∀ (items : List (String × PendingEntry)) (i : Nat)
      (fe : Option String) (ast : AppState),
      (∀ p ∈ items, p.2.op = "upsert" ∨ p.2.op = "delete") →
      (∀ p ∈ items, ¬(p.2.entry.id = "")) →
      (flushGo sha signFn supply okAt items i fe ast).2.2 = items ∧
      (flushGo sha signFn supply okAt items i fe ast).2.1.pending =
        ast.pending.filter
          (fun p => decide (¬p.1 ∈ successIDs okAt items i)) ∧
      ((∀ j, okAt j = true) →
        (flushGo sha signFn supply okAt items i fe ast).1 = fe) := by
  intro items
  induction items with
  | nil =>
      intro i fe ast _ _
      refine ⟨rfl, ?_, fun _ => rfl⟩
      show ast.pending = _
      simp [successIDs]
  | cons hd rest ih =>
      obtain ⟨pid, item⟩ := hd
      intro i fe ast hval hid
      have hvitem : item.op = "upsert" ∨ item.op = "delete" :=
        hval (pid, item) (List.mem_cons_self _ _)
      have hiditem : ¬(item.entry.id = "") :=
        hid (pid, item) (List.mem_cons_self _ _)
      have hvalrest := fun p hp => hval p (List.mem_cons_of_mem _ hp)
      have hidrest := fun p hp => hid p (List.mem_cons_of_mem _ hp)
      rw [flushGo_cons, if_neg (not_not_intro hvitem)]
      cases hok : okAt i with
      | false =>
          rw [pushEntry_false_eq sha signFn ast.engine item.entry item.op
            (supply i).1 (supply i).2 hvitem]
          simp only []
          obtain ⟨ha, hp, hf⟩ := ih (i + 1)
            (match fe with
              | none => some "failed to push event"
              | some m => some m)
            { engine :=
                { ast.engine with
                  lamport := incrementLamport ast.engine.lamport },
              pending := ast.pending } hvalrest hidrest
          refine ⟨?_, ?_, ?_⟩
          · rw [ha]
          · rw [hp]
            simp [successIDs, hok]
          · intro hall
            exact absurd (hall i) (by simp [hok])
      | true =>
          obtain ⟨ev, st2, heq, _, _, _⟩ := pushEntry_true_facts sha signFn
            ast.engine item.entry item.op (supply i).1 (supply i).2 hvitem
          rw [heq]
          simp only []
          obtain ⟨ha, hp, hf⟩ := ih (i + 1) fe
            { engine := st2,
              pending := pendingRemove ast.pending item.entry.id }
            hvalrest hidrest
          refine ⟨?_, ?_, ?_⟩
          · rw [ha]
          · rw [hp]
            show (pendingRemove ast.pending item.entry.id).filter _ = _
            rw [pendingRemove, if_neg hiditem]
            have hids : successIDs okAt ((pid, item) :: rest) i =
                item.entry.id :: successIDs okAt rest (i + 1) := by
              simp [successIDs, hok, hvitem]
            rw [hids]
            exact filter_remove_comb item.entry.id
              (successIDs okAt rest (i + 1)) ast.pending
          · intro hall
            exact hf hall

theorem successIDs_all_ok (okAt : Nat → Bool)
    (hall : ∀ j, okAt j = true) :
    ∀ (items : List (String × PendingEntry)) (i : Nat),
      (∀ p ∈ items, p.2.op = "upsert" ∨ p.2.op = "delete") →
      successIDs okAt items i = items.map (fun p => p.2.entry.id) := by
  intro items
  induction items with
  | nil => intro i _; rfl
  | cons hd rest ih =>
      obtain ⟨pid, item⟩ := hd
      intro i hval
      have hvitem : item.op = "upsert" ∨ item.op = "delete" :=
        hval (pid, item) (List.mem_cons_self _ _)
      have hvalrest := fun p hp => hval p (List.mem_cons_of_mem _ hp)
      simp [successIDs, hall i, hvitem, ih (i + 1) hvalrest]

/-- C8: a failed push is enqueued — handleSyncPushEntry reports the
failure and stores (op, Entry) in sync_pending under the entry id — and
a subsequent FlushPendingEntries re-pushes each queued mutation exactly
once: under a healthy transport it reports no error, attempts every
queued item once and leaves the queue empty, and in general exactly the
items whose re-push attempt failed remain queued. -/
theorem forgor_C8 :
    (∀ (sha signFn : EventSignInput → List Nat) (ast : AppState)
        (entry : Entry) (op : String) (eventID nonce : List Nat),
      (op = "upsert" ∨ op = "delete") → ¬(entry.id = "") →
      (handleSyncPushEntry sha signFn ast entry op eventID nonce false).1 =
        false ∧
      (handleSyncPushEntry sha signFn ast entry op eventID nonce
          false).2.pending.find? (fun q => q.1 = entry.id) =
        some (entry.id, { op := op, entry := entry })) ∧
    (∀ (sha signFn : EventSignInput → List Nat)
        (supply : Nat → List Nat × List Nat) (ast : AppState),
      (∀ p ∈ ast.pending, p.2.op = "upsert" ∨ p.2.op = "delete") →
      (∀ p ∈ ast.pending, ¬(p.2.entry.id = "")) →
      (∀ p ∈ ast.pending, p.1 = p.2.entry.id) →
      (flushPendingEntries sha signFn supply (fun _ => true) ast).2.2 =
        ast.pending ∧
      (flushPendingEntries sha signFn supply (fun _ => true) ast).1 = none ∧
      (flushPendingEntries sha signFn supply
        (fun _ => true) ast).2.1.pending = []) ∧
    (∀ (sha signFn : EventSignInput → List Nat)
        (supply : Nat → List Nat × List Nat) (okAt : Nat → Bool)
        (ast : AppState),
      (∀ p ∈ ast.pending, p.2.op = "upsert" ∨ p.2.op = "delete") →
      (∀ p ∈ ast.pending, ¬(p.2.entry.id = "")) →
      (flushPendingEntries sha signFn supply okAt ast).2.1.pending =
        ast.pending.filter
          (fun p => decide (¬p.1 ∈ successIDs okAt ast.pending 0))) := by
  refine ⟨?_, ?_, ?_⟩
  · intro sha signFn ast entry op eventID nonce hop hid
    unfold handleSyncPushEntry
    rw [if_neg (not_not_intro hop)]
    rw [pushEntry_false_eq sha signFn ast.engine entry op eventID nonce hop]
    refine ⟨rfl, ?_⟩
    show (addPendingEntry ast.pending op entry).find? _ = _
    rw [addPendingEntry, if_neg hid]
    exact pendingPut_find ast.pending entry.id { op := op, entry := entry }
  · intro sha signFn supply ast hval hid hkey
    unfold flushPendingEntries
    by_cases hemp : ast.pending = []
    · rw [if_pos hemp, hemp]
      exact ⟨rfl, rfl, rfl⟩
    · rw [if_neg hemp]
      obtain ⟨ha, hp, hf⟩ := flushGo_spec sha signFn supply (fun _ => true)
        ast.pending 0 none ast hval hid
      refine ⟨ha, hf (fun _ => rfl), ?_⟩
      rw [hp, successIDs_all_ok (fun _ => true) (fun _ => rfl)
        ast.pending 0 hval]
      rw [List.filter_eq_nil_iff]
      intro p hmem
      have : p.1 ∈ ast.pending.map (fun q => q.2.entry.id) := by
        rw [hkey p hmem]
        exact List.mem_map_of_mem _ hmem
      simp [this]
  · intro sha signFn supply okAt ast hval hid
    unfold flushPendingEntries
    by_cases hemp : ast.pending = []
    · rw [if_pos hemp]
      simp [hemp]
    · rw [if_neg hemp]
      exact (flushGo_spec sha signFn supply okAt ast.pending 0 none ast
        hval hid).2.1

/-- Witness for C8: a concrete failed push is queued under its entry
id, and a healthy flush of a one-item queue attempts it once, reports
no error and empties the queue. -/
theorem forgor_C8_witness :
    (("upsert" = "upsert" ∨ "upsert" = "delete") ∧ ¬(exEntryX.id = "")) ∧
    ((handleSyncPushEntry (fun _ => [0]) (fun _ => [1]) exAppState0
        exEntryX "upsert" [1] exNonce false).1 = false ∧
      (handleSyncPushEntry (fun _ => [0]) (fun _ => [1]) exAppState0
          exEntryX "upsert" [1] exNonce false).2.pending.find?
        (fun q => q.1 = exEntryX.id) =
        some (exEntryX.id, { op := "upsert", entry := exEntryX })) ∧
    ((flushPendingEntries (fun _ => [0]) (fun _ => [1])
        (fun _ => ([1], exNonce)) (fun _ => true) exAppState1).2.2 =
      exAppState1.pending ∧
    (flushPendingEntries (fun _ => [0]) (fun _ => [1])
        (fun _ => ([1], exNonce)) (fun _ => true) exAppState1).1 = none ∧
    (flushPendingEntries (fun _ => [0]) (fun _ => [1])
        (fun _ => ([1], exNonce)) (fun _ => true) exAppState1).2.1.pending =
      []) :=
  ⟨⟨Or.inl rfl, by decide⟩,
    forgor_C8.1 (fun _ => [0]) (fun _ => [1]) exAppState0 exEntryX "upsert"
      [1] exNonce (Or.inl rfl) (by decide),
    forgor_C8.2.1 (fun _ => [0]) (fun _ => [1]) (fun _ => ([1], exNonce))
      exAppState1 (by decide) (by decide) (by decide)⟩

end Forgor
